import Mathlib

/-!
Verification of `sleap/nn/region_proposal.py`.

Boxes carry rational coordinates `(y1, x1, y2, x2)`; scores are rationals.
Python integer floor division is `Int.fdiv`, and Python `int()` applied to a
real value is truncation toward zero (`truncQ` below).  Fallible functions
(those that can raise in Python) return `Option`.
-/

/-- Bounding box in the `[y1, x1, y2, x2]` corner format used throughout
`region_proposal.py`. -/
structure Box where
  y1 : ℚ
  x1 : ℚ
  y2 : ℚ
  x2 : ℚ
deriving DecidableEq, Repr

/-- Validity invariant from the spec: `y2 >= y1` and `x2 >= x1`. -/
def Box.valid (b : Box) : Prop := b.y1 ≤ b.y2 ∧ b.x1 ≤ b.x2

instance (b : Box) : Decidable b.valid := by
  unfold Box.valid; infer_instance

/-- Pixel-inclusive area of a box, `(x2 - x1 + 1) * (y2 - y1 + 1)`
(lines 109-110 of `region_proposal.py`). -/
def boxArea (b : Box) : ℚ := (b.x2 - b.x1 + 1) * (b.y2 - b.y1 + 1)

/-- Python builtin `min` on rationals (explicit conditional so that concrete
instances evaluate inside the kernel). -/
def qmin (a b : ℚ) : ℚ := if a ≤ b then a else b

/-- Python builtin `max` on rationals (explicit conditional so that concrete
instances evaluate inside the kernel). -/
def qmax (a b : ℚ) : ℚ := if a ≤ b then b else a

/-- Clamped pixel-inclusive intersection area of two boxes
(lines 100-107 of `region_proposal.py`). -/
def intersectionArea (b1 b2 : Box) : ℚ :=
  qmax (qmin b1.x2 b2.x2 - qmax b1.x1 b2.x1 + 1) 0 *
    qmax (qmin b1.y2 b2.y2 - qmax b1.y1 b2.y1 + 1) 0

/-- Union area `bbox1_area + bbox2_area - intersection_area`
(line 112 of `region_proposal.py`). -/
def unionArea (b1 b2 : Box) : ℚ := boxArea b1 + boxArea b2 - intersectionArea b1 b2

/-- `compute_iou` (lines 85-116 of `region_proposal.py`): ratio between the
intersection and union areas, with the pixel-inclusive `+1` convention. -/
def compute_iou (b1 b2 : Box) : ℚ := intersectionArea b1 b2 / unionArea b1 b2

/-- Two boxes share no pixels under the pixel-inclusive convention: the
clamped intersection extent is nonpositive on at least one axis. -/
def noSharedPixels (b1 b2 : Box) : Prop :=
  qmin b1.y2 b2.y2 - qmax b1.y1 b2.y1 + 1 ≤ 0 ∨
    qmin b1.x2 b2.x2 - qmax b1.x1 b2.x1 + 1 ≤ 0

instance (b1 b2 : Box) : Decidable (noSharedPixels b1 b2) := by
  unfold noSharedPixels; infer_instance

/-- Single centered box from `make_centered_bboxes` (lines 62-82): the point
coordinates plus the offsets `(-box_length) // 2` (top and left) and
`box_length // 2` (bottom and right), with an extra `0.5` on every
coordinate when `center_offset` is set. -/
def centeredBox (p : ℚ × ℚ) (box_length : ℤ) (center_offset : Bool) : Box :=
  let d : ℚ := if center_offset then 1 / 2 else 0
  { y1 := p.1 + (Int.fdiv (-box_length) 2 : ℤ) + d
    x1 := p.2 + (Int.fdiv (-box_length) 2 : ℤ) + d
    y2 := p.1 + (Int.fdiv box_length 2 : ℤ) + d
    x2 := p.2 + (Int.fdiv box_length 2 : ℤ) + d }

/-- `make_centered_bboxes` (lines 27-82): a centroid row of width 2 is read
as `[row, col]`, a row of width 4 as `[sample, row, col, channel]`; any other
column count falls through both branches and the function fails (in Python,
`centroids_y` is unbound at line 62 and an exception is raised).  `ncols` is
the uniform row width of the input array (`centroids.shape[1]`). -/
def make_centered_bboxes (centroids : List (List ℚ)) (ncols : ℕ)
    (box_length : ℤ) (center_offset : Bool) : Option (List Box) :=
  if ncols = 2 then
    some (centroids.map (fun r => centeredBox (r.getD 0 0, r.getD 1 0) box_length center_offset))
  else if ncols = 4 then
    some (centroids.map (fun r => centeredBox (r.getD 1 0, r.getD 2 0) box_length center_offset))
  else
    none

/-- Python `int()` applied to a rational: truncation toward zero. -/
def truncQ (q : ℚ) : ℤ := if 0 ≤ q then ⌊q⌋ else ⌈q⌉

/-- Size-group key of a box (line 385 of `region_proposal.py`):
`(int(bbox[2] - bbox[0]), int(bbox[3] - bbox[1]))`. -/
def boxKey (b : Box) : ℤ × ℤ := (truncQ (b.y2 - b.y1), truncQ (b.x2 - b.x1))

/-- All unordered pairs of a list in `itertools.combinations` order. -/
def combinations2 {α : Type} : List α → List (α × α)
  | [] => []
  | x :: xs => xs.map (fun y => (x, y)) ++ combinations2 xs

/-- Pairs of `(box, score)` entries whose IoU strictly exceeds the merge
threshold (lines 219-224 of `region_proposal.py`). -/
def mergeHits (zipped : List (Box × ℚ)) (thr : ℚ) : List ((Box × ℚ) × (Box × ℚ)) :=
  (combinations2 zipped).filter (fun p => decide (thr < compute_iou p.1.1 p.2.1))

/-- `generate_merged_bboxes` (lines 183-249): for each sufficiently
overlapping pair, a new box of size `merged_box_length` is centered (without
the half-pixel offset) on the far-corner midpoint
`((bbox_i[0] + bbox_j[2]) / 2, (bbox_i[1] + bbox_j[3]) / 2)` with score
`score_i + score_j`; the output concatenates the original boxes and scores
first, then the merged ones.  When no pair qualifies the code concatenates
an empty `(0, 4)` array, which is the same as appending the empty list. -/
def generate_merged_bboxes (bboxes : List Box) (bbox_scores : List ℚ)
    (merged_box_length : ℤ) (merge_iou_threshold : ℚ) : List Box × List ℚ :=
  let hits := mergeHits (bboxes.zip bbox_scores) merge_iou_threshold
  let mergedBoxes := hits.map (fun p =>
    centeredBox ((p.1.1.y1 + p.2.1.y2) / 2, (p.1.1.x1 + p.2.1.x2) / 2)
      merged_box_length false)
  let mergedScores := hits.map (fun p => p.1.2 + p.2.2)
  (bboxes ++ mergedBoxes, bbox_scores ++ mergedScores)

/-- Fallback box for out-of-range list indexing (never reached on the index
sets used below). -/
def dummyBox : Box := ⟨0, 0, 0, 0⟩

/-- `merge_bboxes` (lines 151-180): nested index loops `i < j`; a qualifying
pair contributes a box with corners `middle_centroid ± merge_box_length / 2`
(true division) and score `bbox_scores[i] + bbox_scores[j]`.  The original
boxes are appended AFTER the candidates (`candidate_bboxes.extend(...)`), and
`np.stack` on an empty candidate list raises, hence `none` for empty input. -/
def merge_bboxes (bboxes : List Box) (bbox_scores : List ℚ)
    (merge_box_length : ℚ) (merge_min_iou : ℚ) : Option (List Box × List ℚ) :=
  let n := bboxes.length
  let idxPairs := (List.range n).flatMap (fun i =>
    ((List.range n).drop (i + 1)).map (fun j => (i, j)))
  let hits := idxPairs.filter (fun p =>
    decide (merge_min_iou < compute_iou (bboxes.getD p.1 dummyBox) (bboxes.getD p.2 dummyBox)))
  let candBoxes := hits.map (fun p =>
    let bi := bboxes.getD p.1 dummyBox
    let bj := bboxes.getD p.2 dummyBox
    let cy := (bi.y1 + bj.y2) / 2
    let cx := (bi.x1 + bj.x2) / 2
    (⟨cy - merge_box_length / 2, cx - merge_box_length / 2,
      cy + merge_box_length / 2, cx + merge_box_length / 2⟩ : Box))
  let candScores := hits.map (fun p => bbox_scores.getD p.1 0 + bbox_scores.getD p.2 0)
  let outBoxes := candBoxes ++ bboxes
  let outScores := candScores ++ bbox_scores
  if outBoxes.isEmpty then none else some (outBoxes, outScores)

/-- Modelled from the spec: the greedy selection step of
`tf.image.non_max_suppression_with_scores` (the NMS core called by
`nms_bboxes`, external to this repository).  Returns the first
highest-scoring element of the list together with the remaining elements in
their original order (ties broken by earliest index, a deterministic
tie-break as the spec allows). -/
def selectMax : List (Box × ℚ) → Option ((Box × ℚ) × List (Box × ℚ))
  | [] => none
  | x :: xs =>
    match selectMax xs with
    | none => some (x, [])
    | some (y, rest) => if x.2 < y.2 then some (y, x :: rest) else some (x, xs)

/-- Modelled from the spec: greedy NMS from section 4.3 — repeatedly select
the highest-scoring remaining box, keep it, and drop every remaining box
whose IoU against it exceeds `iou_threshold`, until no boxes remain or
`max_boxes` have been kept.  The first argument is the remaining output
budget (`max_boxes` at the top call). -/
def nmsGreedy : ℕ → List (Box × ℚ) → ℚ → List (Box × ℚ)
  | 0, _, _ => []
  | k + 1, l, thr =>
    match selectMax l with
    | none => []
    | some (best, rest) =>
      best :: nmsGreedy k (rest.filter (fun p => decide (compute_iou best.1 p.1 ≤ thr))) thr

/-- `nms_bboxes` (lines 119-148): wrapper that zips boxes with scores, runs
the (spec-modelled) greedy NMS with the `max_boxes` budget, and returns the
selected boxes only (the wrapper discards the selected scores). -/
def nms_bboxes (bboxes : List Box) (bbox_scores : List ℚ)
    (iou_threshold : ℚ) (max_boxes : ℕ) : List Box :=
  (nmsGreedy max_boxes (bboxes.zip bbox_scores) iou_threshold).map Prod.fst

/-- Modelled from the spec: `sleap.nn.utils.group_array` (not under `src/`) —
section 4.4, grouping by sample: a stable partition of `vals` keyed by the
aligned `keys` sequence; this is the group of key `k`. -/
def group_array {α : Type} (vals : List α) (keys : List ℤ) (k : ℤ) : List α :=
  ((keys.zip vals).filter (fun p => decide (p.1 = k))).map Prod.snd

/-- Distinct keys of a list in order of first occurrence, matching Python
dict insertion order. -/
def firstKeys {α : Type} [DecidableEq α] : List α → List α
  | [] => []
  | x :: xs => x :: (firstKeys xs).filter (fun y => decide (y ≠ x))

/-- Initial instance boxes of the pipeline (line 354):
`make_centered_bboxes(centroids, instance_box_length)` on the 4-column
centroid array, with the default `center_offset=True`. -/
def centeredBoxes4 (centroids : List (List ℚ)) (box_length : ℤ) : List Box :=
  centroids.map (fun r => centeredBox (r.getD 1 0, r.getD 2 0) box_length true)

/-- Per-sample merge and suppression stage of `extract_region_proposals`
(lines 353-376): boxes and scores are grouped by the truncated sample index
(`centroids[:, 0].astype(int)`), and each sample group runs
`generate_merged_bboxes` followed by `nms_bboxes` with the default
`max_boxes=128`.  The result pairs each surviving box with its sample index,
in sample-key first-occurrence order. -/
def pipelineSurvivors (centroids : List (List ℚ)) (centroid_vals : List ℚ)
    (instance_box_length merged_box_length : ℤ)
    (merge_iou_threshold nms_iou_threshold : ℚ) : List (ℤ × Box) :=
  let all_bboxes := centeredBoxes4 centroids instance_box_length
  let sample_inds := centroids.map (fun r => truncQ (r.getD 0 0))
  (firstKeys sample_inds).flatMap (fun s =>
    let bs := group_array all_bboxes sample_inds s
    let ss := group_array centroid_vals sample_inds s
    let cand := generate_merged_bboxes bs ss merged_box_length merge_iou_threshold
    (nms_bboxes cand.1 cand.2 nms_iou_threshold 128).map (fun b => (s, b)))

/-- Output record of the pipeline (lines 19-24); the `patches` tensor is
produced by the external crop primitive and is not modelled. -/
structure RegionProposalSet where
  box_size : ℤ × ℤ
  sample_inds : List ℤ
  bboxes : List Box
deriving DecidableEq, Repr

/-- Size-grouping and packaging stage of `extract_region_proposals`
(lines 378-412): surviving boxes across all samples are partitioned by
`boxKey` (insertion order preserved within a group and across group keys),
and one `RegionProposalSet` is produced per distinct size key. -/
def extract_region_proposals (centroids : List (List ℚ)) (centroid_vals : List ℚ)
    (instance_box_length merged_box_length : ℤ)
    (merge_iou_threshold nms_iou_threshold : ℚ) : List RegionProposalSet :=
  let survivors := pipelineSurvivors centroids centroid_vals
    instance_box_length merged_box_length merge_iou_threshold nms_iou_threshold
  let sizeKeys := firstKeys (survivors.map (fun p => boxKey p.2))
  sizeKeys.map (fun k =>
    let members := survivors.filter (fun p => decide (boxKey p.2 = k))
    { box_size := k
      sample_inds := members.map Prod.fst
      bboxes := members.map Prod.snd })

/-! ### Arithmetic helpers -/

lemma fdiv_two_sub (L : ℤ) : Int.fdiv L 2 - Int.fdiv (-L) 2 = L := by
  rw [Int.fdiv_eq_ediv _ (by norm_num), Int.fdiv_eq_ediv _ (by norm_num)]
  omega

lemma fdiv_two_neg_odd (L : ℤ) (h : L % 2 = 1) :
    -Int.fdiv (-L) 2 = Int.fdiv L 2 + 1 := by
  rw [Int.fdiv_eq_ediv _ (by norm_num), Int.fdiv_eq_ediv _ (by norm_num)]
  omega

lemma fdiv_two_neg_le (L : ℤ) (h : 1 ≤ L) : Int.fdiv (-L) 2 ≤ -1 := by
  rw [Int.fdiv_eq_ediv _ (by norm_num)]
  omega

lemma fdiv_two_nonneg (L : ℤ) (h : 0 ≤ L) : 0 ≤ Int.fdiv L 2 := by
  rw [Int.fdiv_eq_ediv _ (by norm_num)]
  omega

lemma truncQ_intCast (n : ℤ) : truncQ (n : ℚ) = n := by
  unfold truncQ
  split <;> simp

lemma qmin_eq (a b : ℚ) : qmin a b = min a b := (min_def a b).symm

lemma qmax_eq (a b : ℚ) : qmax a b = max a b := (max_def a b).symm

lemma intersectionArea_eq (b1 b2 : Box) :
    intersectionArea b1 b2 =
      max (min b1.x2 b2.x2 - max b1.x1 b2.x1 + 1) 0 *
        max (min b1.y2 b2.y2 - max b1.y1 b2.y1 + 1) 0 := by
  simp [intersectionArea, qmin_eq, qmax_eq]

lemma noSharedPixels_iff (b1 b2 : Box) :
    noSharedPixels b1 b2 ↔
      min b1.y2 b2.y2 - max b1.y1 b2.y1 + 1 ≤ 0 ∨
        min b1.x2 b2.x2 - max b1.x1 b2.x1 + 1 ≤ 0 := by
  simp [noSharedPixels, qmin_eq, qmax_eq]

/-! ### Geometry lemmas -/

lemma centeredBox_extent (p : ℚ × ℚ) (L : ℤ) (off : Bool) :
    (centeredBox p L off).y2 - (centeredBox p L off).y1 = (L : ℚ) ∧
    (centeredBox p L off).x2 - (centeredBox p L off).x1 = (L : ℚ) := by
  have h : ((Int.fdiv L 2 : ℤ) : ℚ) - ((Int.fdiv (-L) 2 : ℤ) : ℚ) = (L : ℚ) := by
    exact_mod_cast congrArg (fun z : ℤ => (z : ℚ)) (fdiv_two_sub L)
  constructor <;> (simp only [centeredBox]; linarith)

lemma one_le_boxArea (b : Box) (h : b.valid) : 1 ≤ boxArea b := by
  obtain ⟨hy, hx⟩ := h
  unfold boxArea
  nlinarith

lemma intersectionArea_nonneg (b1 b2 : Box) : 0 ≤ intersectionArea b1 b2 := by
  rw [intersectionArea_eq]
  exact mul_nonneg (le_max_right _ _) (le_max_right _ _)

lemma intersectionArea_comm (b1 b2 : Box) :
    intersectionArea b1 b2 = intersectionArea b2 b1 := by
  rw [intersectionArea_eq, intersectionArea_eq]
  rw [min_comm b1.x2 b2.x2, max_comm b1.x1 b2.x1, min_comm b1.y2 b2.y2,
    max_comm b1.y1 b2.y1]

lemma intersectionArea_le_left (b1 b2 : Box) (h1 : b1.valid) :
    intersectionArea b1 b2 ≤ boxArea b1 := by
  obtain ⟨hy, hx⟩ := h1
  rw [intersectionArea_eq]
  unfold boxArea
  have hminx := min_le_left b1.x2 b2.x2
  have hmaxx := le_max_left b1.x1 b2.x1
  have hminy := min_le_left b1.y2 b2.y2
  have hmaxy := le_max_left b1.y1 b2.y1
  have hfx : max (min b1.x2 b2.x2 - max b1.x1 b2.x1 + 1) 0 ≤ b1.x2 - b1.x1 + 1 :=
    max_le (by linarith) (by linarith)
  have hfy : max (min b1.y2 b2.y2 - max b1.y1 b2.y1 + 1) 0 ≤ b1.y2 - b1.y1 + 1 :=
    max_le (by linarith) (by linarith)
  exact mul_le_mul hfx hfy (le_max_right _ _) (by linarith)

lemma intersectionArea_le_right (b1 b2 : Box) (h2 : b2.valid) :
    intersectionArea b1 b2 ≤ boxArea b2 := by
  rw [intersectionArea_comm]
  exact intersectionArea_le_left b2 b1 h2

lemma one_le_unionArea (b1 b2 : Box) (h1 : b1.valid) (h2 : b2.valid) :
    1 ≤ unionArea b1 b2 := by
  have hi := intersectionArea_le_left b1 b2 h1
  have ha := one_le_boxArea b2 h2
  unfold unionArea
  linarith

lemma compute_iou_le_one (b1 b2 : Box) (h1 : b1.valid) (h2 : b2.valid) :
    compute_iou b1 b2 ≤ 1 := by
  have hi1 := intersectionArea_le_left b1 b2 h1
  have hi2 := intersectionArea_le_right b1 b2 h2
  have hu := one_le_unionArea b1 b2 h1 h2
  rw [compute_iou, div_le_one (by linarith)]
  unfold unionArea at hu ⊢
  linarith

/-! ### Claim C2 -/

/-- Claim C2, counterexample: at point `(0, 0)` with odd `box_length = 5` and
no center offset, the constructed box is `(-3, -3, 2, 2)`: the top/left
extent is `3`, which is neither the claimed `5 // 2 = 2`, nor is the
bottom/right extent one unit larger than the top/left one (it is one unit
smaller). -/
theorem centered_bbox_offset_cex :
    make_centered_bboxes [[0, 0]] 2 5 false = some [⟨-3, -3, 2, 2⟩] ∧
    ¬ ((0 : ℚ) - (-3 : ℚ) = ((Int.fdiv 5 2 : ℤ) : ℚ)) ∧
    ¬ ((2 : ℚ) - 0 = ((0 : ℚ) - (-3 : ℚ)) + 1) := by
  refine ⟨by with_unfolding_all decide, by with_unfolding_all decide,
    by with_unfolding_all decide⟩

/-- Claim C2 (amended): `make_centered_bboxes` offsets the negative (top/left)
extents by the floor division `(-L) // 2` and the positive (bottom/right)
extents by `L // 2`, producing a box of width and height exactly `L` that
contains the point; for odd `L` (without the half-pixel center offset) the
box is one unit larger on the top/left of the center point than on the
bottom/right. -/
theorem centered_bbox_geometry (y x : ℚ) (L : ℤ) (off : Bool) (hL : 1 ≤ L) :
    make_centered_bboxes [[y, x]] 2 L off = some [centeredBox (y, x) L off] ∧
    ((centeredBox (y, x) L off).y2 - (centeredBox (y, x) L off).y1 = (L : ℚ) ∧
     (centeredBox (y, x) L off).x2 - (centeredBox (y, x) L off).x1 = (L : ℚ)) ∧
    ((centeredBox (y, x) L off).y1 ≤ y ∧ y ≤ (centeredBox (y, x) L off).y2 ∧
     (centeredBox (y, x) L off).x1 ≤ x ∧ x ≤ (centeredBox (y, x) L off).x2) ∧
    (L % 2 = 1 → off = false →
      y - (centeredBox (y, x) L off).y1 = ((centeredBox (y, x) L off).y2 - y) + 1 ∧
      x - (centeredBox (y, x) L off).x1 = ((centeredBox (y, x) L off).x2 - x) + 1) := by
  refine ⟨rfl, centeredBox_extent _ _ _, ?_, ?_⟩
  · have ha : ((Int.fdiv (-L) 2 : ℤ) : ℚ) ≤ -1 := by
      exact_mod_cast fdiv_two_neg_le L hL
    have hb : (0 : ℚ) ≤ ((Int.fdiv L 2 : ℤ) : ℚ) := by
      exact_mod_cast fdiv_two_nonneg L (by omega)
    have hd1 : (if off then (1 : ℚ) / 2 else 0) ≤ 1 / 2 := by
      cases off <;> norm_num
    have hd0 : (0 : ℚ) ≤ (if off then (1 : ℚ) / 2 else 0) := by
      cases off <;> norm_num
    simp only [centeredBox]
    refine ⟨by linarith, by linarith, by linarith, by linarith⟩
  · intro hodd hoff
    subst hoff
    have h' : -((Int.fdiv (-L) 2 : ℤ) : ℚ) = ((Int.fdiv L 2 : ℤ) : ℚ) + 1 := by
      exact_mod_cast fdiv_two_neg_odd L hodd
    simp only [centeredBox, Bool.false_eq_true, if_false]
    constructor <;> linarith

/-- Witness for `centered_bbox_geometry` at `y = x = 0`, `L = 5`,
`off = false`. -/
theorem centered_bbox_geometry_witness :
    (1 : ℤ) ≤ 5 ∧
    make_centered_bboxes [[0, 0]] 2 5 false = some [centeredBox (0, 0) 5 false] :=
  ⟨by norm_num, (centered_bbox_geometry 0 0 5 false (by norm_num)).1⟩

/-! ### Claim C6 -/

/-- Claim C6: for valid boxes the union area (the denominator of
`compute_iou`) is at least `1`, hence nonzero. -/
theorem iou_denominator_ge_one (b1 b2 : Box) (h1 : b1.valid) (h2 : b2.valid) :
    1 ≤ unionArea b1 b2 ∧ unionArea b1 b2 ≠ 0 := by
  have h := one_le_unionArea b1 b2 h1 h2
  exact ⟨h, by linarith⟩

/-- Witness for `iou_denominator_ge_one` on two concrete valid boxes. -/
theorem iou_denominator_ge_one_witness :
    (⟨0, 0, 1, 1⟩ : Box).valid ∧ (⟨0, 0, 2, 2⟩ : Box).valid ∧
    (1 ≤ unionArea ⟨0, 0, 1, 1⟩ ⟨0, 0, 2, 2⟩ ∧
      unionArea ⟨0, 0, 1, 1⟩ ⟨0, 0, 2, 2⟩ ≠ 0) :=
  ⟨by decide, by decide, iou_denominator_ge_one _ _ (by decide) (by decide)⟩

/-! ### Claim C7 -/

/-- Claim C7: `compute_iou` is reflexively `1` on valid boxes, symmetric,
and `0` on valid boxes sharing no pixels under the pixel-inclusive
convention. -/
theorem iou_refl_symm_disjoint :
    (∀ A : Box, A.valid → compute_iou A A = 1) ∧
    (∀ A B : Box, compute_iou A B = compute_iou B A) ∧
    (∀ A B : Box, A.valid → B.valid → noSharedPixels A B → compute_iou A B = 0) := by
  refine ⟨?_, ?_, ?_⟩
  · intro A hA
    have hself : intersectionArea A A = boxArea A := by
      obtain ⟨hy, hx⟩ := hA
      rw [intersectionArea_eq]
      unfold boxArea
      rw [min_self, min_self, max_self, max_self,
        max_eq_left (by linarith : (0 : ℚ) ≤ A.x2 - A.x1 + 1),
        max_eq_left (by linarith : (0 : ℚ) ≤ A.y2 - A.y1 + 1)]
    have hA1 := one_le_boxArea A hA
    rw [compute_iou, unionArea, hself]
    have hden : boxArea A + boxArea A - boxArea A = boxArea A := by ring
    rw [hden]
    exact div_self (by linarith)
  · intro A B
    rw [compute_iou, compute_iou, intersectionArea_comm, unionArea, unionArea,
      intersectionArea_comm, add_comm (boxArea A) (boxArea B)]
  · intro A B hA hB hd
    rw [noSharedPixels_iff] at hd
    have hzero : intersectionArea A B = 0 := by
      rw [intersectionArea_eq]
      rcases hd with hy | hx
      · rw [max_eq_right hy, mul_zero]
      · rw [max_eq_right hx, zero_mul]
    rw [compute_iou, hzero, zero_div]

/-- Witness for `iou_refl_symm_disjoint` on concrete boxes. -/
theorem iou_refl_symm_disjoint_witness :
    compute_iou ⟨0, 0, 1, 1⟩ ⟨0, 0, 1, 1⟩ = 1 ∧
    compute_iou ⟨0, 0, 1, 1⟩ ⟨5, 5, 6, 6⟩ = compute_iou ⟨5, 5, 6, 6⟩ ⟨0, 0, 1, 1⟩ ∧
    compute_iou ⟨0, 0, 1, 1⟩ ⟨5, 5, 6, 6⟩ = 0 :=
  ⟨iou_refl_symm_disjoint.1 _ (by decide),
   iou_refl_symm_disjoint.2.1 _ _,
   iou_refl_symm_disjoint.2.2 _ _ (by decide) (by decide)
     (by with_unfolding_all decide)⟩

/-! ### Selection and suppression lemmas -/

lemma selectMax_mem {l : List (Box × ℚ)} {y : Box × ℚ} {rest : List (Box × ℚ)}
    (h : selectMax l = some (y, rest)) : y ∈ l := by
  induction l generalizing y rest with
  | nil => simp [selectMax] at h
  | cons x xs ih =>
    cases hs : selectMax xs with
    | none =>
      simp only [selectMax, hs] at h
      injection h with h'
      injection h' with h1 h2
      subst h1
      exact List.mem_cons_self _ _
    | some q =>
      obtain ⟨z, r⟩ := q
      simp only [selectMax, hs] at h
      split at h
      · injection h with h'
        injection h' with h1 h2
        subst h1
        exact List.mem_cons_of_mem _ (ih hs)
      · injection h with h'
        injection h' with h1 h2
        subst h1
        exact List.mem_cons_self _ _

lemma selectMax_rest_subset {l : List (Box × ℚ)} {y : Box × ℚ} {rest : List (Box × ℚ)}
    (h : selectMax l = some (y, rest)) : ∀ q ∈ rest, q ∈ l := by
  induction l generalizing y rest with
  | nil => simp [selectMax] at h
  | cons x xs ih =>
    cases hs : selectMax xs with
    | none =>
      simp only [selectMax, hs] at h
      injection h with h'
      injection h' with h1 h2
      subst h2
      intro q hq
      simp at hq
    | some q0 =>
      obtain ⟨z, r⟩ := q0
      simp only [selectMax, hs] at h
      split at h
      · injection h with h'
        injection h' with h1 h2
        subst h2
        intro q hq
        rcases List.mem_cons.mp hq with rfl | hq
        · exact List.mem_cons_self _ _
        · exact List.mem_cons_of_mem _ (ih hs _ hq)
      · injection h with h'
        injection h' with h1 h2
        subst h2
        intro q hq
        exact List.mem_cons_of_mem _ hq

lemma selectMax_cons_isSome (x : Box × ℚ) (xs : List (Box × ℚ)) :
    (selectMax (x :: xs)).isSome := by
  simp only [selectMax]
  cases selectMax xs with
  | none => rfl
  | some q =>
    obtain ⟨z, r⟩ := q
    split <;> first
    | rfl
    | split <;> rfl

lemma selectMax_eq_none {l : List (Box × ℚ)} (h : selectMax l = none) : l = [] := by
  cases l with
  | nil => rfl
  | cons x xs =>
    have hsome := selectMax_cons_isSome x xs
    rw [h] at hsome
    simp at hsome

lemma selectMax_rest_length {l : List (Box × ℚ)} {y : Box × ℚ} {rest : List (Box × ℚ)}
    (h : selectMax l = some (y, rest)) : rest.length + 1 = l.length := by
  induction l generalizing y rest with
  | nil => simp [selectMax] at h
  | cons x xs ih =>
    cases hs : selectMax xs with
    | none =>
      have hxs := selectMax_eq_none hs
      subst hxs
      simp only [selectMax] at h
      injection h with h'
      injection h' with h1 h2
      subst h2
      simp
    | some q =>
      obtain ⟨z, r⟩ := q
      simp only [selectMax, hs] at h
      split at h
      · injection h with h'
        injection h' with h1 h2
        subst h2
        have hr := ih hs
        simp only [List.length_cons] at hr ⊢
        omega
      · injection h with h'
        injection h' with h1 h2
        subst h2
        rfl

lemma nmsGreedy_subset : ∀ (k : ℕ) (l : List (Box × ℚ)) (thr : ℚ),
    ∀ p ∈ nmsGreedy k l thr, p ∈ l := by
  intro k
  induction k with
  | zero => intro l thr p hp; simp [nmsGreedy] at hp
  | succ n ih =>
    intro l thr p hp
    cases hs : selectMax l with
    | none => rw [nmsGreedy, hs] at hp; simp at hp
    | some q =>
      obtain ⟨best, rest⟩ := q
      rw [nmsGreedy, hs] at hp
      rcases List.mem_cons.mp hp with rfl | hp
      · exact selectMax_mem hs
      · exact selectMax_rest_subset hs _ (List.mem_of_mem_filter (ih _ _ _ hp))

lemma nmsGreedy_length_le_fuel : ∀ (k : ℕ) (l : List (Box × ℚ)) (thr : ℚ),
    (nmsGreedy k l thr).length ≤ k := by
  intro k
  induction k with
  | zero => intro l thr; simp [nmsGreedy]
  | succ n ih =>
    intro l thr
    cases hs : selectMax l with
    | none => rw [nmsGreedy, hs]; simp
    | some q =>
      obtain ⟨best, rest⟩ := q
      rw [nmsGreedy, hs]
      simp only [List.length_cons]
      exact Nat.succ_le_succ (ih _ _)

lemma nmsGreedy_length_le_list : ∀ (k : ℕ) (l : List (Box × ℚ)) (thr : ℚ),
    (nmsGreedy k l thr).length ≤ l.length := by
  intro k
  induction k with
  | zero => intro l thr; simp [nmsGreedy]
  | succ n ih =>
    intro l thr
    cases hs : selectMax l with
    | none => rw [nmsGreedy, hs]; simp
    | some q =>
      obtain ⟨best, rest⟩ := q
      rw [nmsGreedy, hs]
      simp only [List.length_cons]
      have h1 := ih (rest.filter (fun p => decide (compute_iou best.1 p.1 ≤ thr))) thr
      have h2 := List.length_filter_le
        (fun p => decide (compute_iou best.1 p.1 ≤ thr)) rest
      have h3 := selectMax_rest_length hs
      omega

/-! ### Claim C4 -/

/-- Claim C4: `nms_bboxes` returns at most `min (max_boxes, input count)`
boxes, and every returned box is one of the input boxes (no fabrication, no
modification). -/
theorem nms_bounded_subset (bboxes : List Box) (bbox_scores : List ℚ)
    (iou_threshold : ℚ) (max_boxes : ℕ)
    (_hv : ∀ b ∈ bboxes, b.valid) :
    (nms_bboxes bboxes bbox_scores iou_threshold max_boxes).length ≤
      min max_boxes bboxes.length ∧
    ∀ b ∈ nms_bboxes bboxes bbox_scores iou_threshold max_boxes, b ∈ bboxes := by
  constructor
  · rw [nms_bboxes, List.length_map]
    refine le_min (nmsGreedy_length_le_fuel _ _ _) ?_
    have h1 := nmsGreedy_length_le_list max_boxes (bboxes.zip bbox_scores) iou_threshold
    have h2 : (bboxes.zip bbox_scores).length ≤ bboxes.length := by
      rw [List.length_zip]
      exact min_le_left _ _
    omega
  · intro b hb
    rw [nms_bboxes] at hb
    rcases List.mem_map.mp hb with ⟨p, hp, rfl⟩
    obtain ⟨p1, p2⟩ := p
    exact (List.of_mem_zip (nmsGreedy_subset _ _ _ _ hp)).1

/-- Witness for `nms_bounded_subset` on a concrete input. -/
theorem nms_bounded_subset_witness :
    (∀ b ∈ [(⟨0, 0, 1, 1⟩ : Box)], b.valid) ∧
    ((nms_bboxes [(⟨0, 0, 1, 1⟩ : Box)] [1] (1 / 4) 128).length ≤
        min 128 [(⟨0, 0, 1, 1⟩ : Box)].length ∧
      ∀ b ∈ nms_bboxes [(⟨0, 0, 1, 1⟩ : Box)] [1] (1 / 4) 128,
        b ∈ [(⟨0, 0, 1, 1⟩ : Box)]) :=
  ⟨by decide, nms_bounded_subset _ _ _ _ (by decide)⟩

/-! ### Pair-generation lemmas -/

lemma combinations2_mem {α : Type} :
    ∀ (l : List α) (p : α × α), p ∈ combinations2 l → p.1 ∈ l ∧ p.2 ∈ l := by
  intro l
  induction l with
  | nil => intro p hp; simp [combinations2] at hp
  | cons x xs ih =>
    intro p hp
    simp only [combinations2, List.mem_append, List.mem_map] at hp
    rcases hp with ⟨y, hy, rfl⟩ | hp
    · exact ⟨List.mem_cons_self _ _, List.mem_cons_of_mem _ hy⟩
    · obtain ⟨h1, h2⟩ := ih p hp
      exact ⟨List.mem_cons_of_mem _ h1, List.mem_cons_of_mem _ h2⟩

/-! ### Claim C8 -/

/-- Claim C8: with a merge threshold of at least `1`, no pair of valid boxes
can strictly exceed the threshold (IoU is at most `1`), so
`generate_merged_bboxes` returns its input unchanged. -/
theorem merge_high_threshold_identity (bboxes : List Box) (bbox_scores : List ℚ)
    (merged_box_length : ℤ) (merge_iou_threshold : ℚ)
    (hv : ∀ b ∈ bboxes, b.valid) (hthr : 1 ≤ merge_iou_threshold) :
    generate_merged_bboxes bboxes bbox_scores merged_box_length merge_iou_threshold =
      (bboxes, bbox_scores) := by
  have hhits : mergeHits (bboxes.zip bbox_scores) merge_iou_threshold = [] := by
    rw [mergeHits, List.filter_eq_nil_iff]
    intro p hp
    obtain ⟨⟨p1, s1⟩, ⟨p2, s2⟩⟩ := p
    have h1 : p1 ∈ bboxes := (List.of_mem_zip (combinations2_mem _ _ hp).1).1
    have h2 : p2 ∈ bboxes := (List.of_mem_zip (combinations2_mem _ _ hp).2).1
    simp only [decide_eq_true_eq, not_lt]
    exact le_trans (compute_iou_le_one _ _ (hv _ h1) (hv _ h2)) hthr
  simp [generate_merged_bboxes, hhits]

/-- Witness for `merge_high_threshold_identity` on a concrete input. -/
theorem merge_high_threshold_identity_witness :
    (∀ b ∈ [(⟨0, 0, 1, 1⟩ : Box)], b.valid) ∧ (1 : ℚ) ≤ 1 ∧
    generate_merged_bboxes [(⟨0, 0, 1, 1⟩ : Box)] [1] 2 1 = ([⟨0, 0, 1, 1⟩], [1]) :=
  ⟨by decide, le_refl 1, merge_high_threshold_identity _ _ 2 1 (by decide) (le_refl 1)⟩

/-! ### Claim C9 -/

/-- Claim C9: a centroid array whose column count is neither 2 nor 4 makes
`make_centered_bboxes` fail (no silent repair, no result). -/
theorem make_centered_bboxes_bad_ncols (centroids : List (List ℚ)) (ncols : ℕ)
    (box_length : ℤ) (center_offset : Bool)
    (h2 : ncols ≠ 2) (h4 : ncols ≠ 4) :
    make_centered_bboxes centroids ncols box_length center_offset = none := by
  simp [make_centered_bboxes, h2, h4]

/-- Witness for `make_centered_bboxes_bad_ncols` at a 3-column input. -/
theorem make_centered_bboxes_bad_ncols_witness :
    (3 : ℕ) ≠ 2 ∧ (3 : ℕ) ≠ 4 ∧
    make_centered_bboxes [[1, 2, 3]] 3 5 true = none :=
  ⟨by decide, by decide, make_centered_bboxes_bad_ncols _ _ _ _ (by decide) (by decide)⟩

/-! ### Claim C1 -/

/-- Claim C1, counterexample: `merge_bboxes` appends the original boxes AFTER
the merged candidates, so on a pair of identical boxes (IoU `1`) the first
two output entries are not the two input boxes: the input is not a prefix of
the output. -/
theorem mergeBboxes_originals_last_cex :
    (merge_bboxes [(⟨0, 0, 9, 9⟩ : Box), ⟨0, 0, 9, 9⟩] [1, 1] 20 (1 / 10)).map
        (fun r => r.1.take 2) ≠ some [(⟨0, 0, 9, 9⟩ : Box), ⟨0, 0, 9, 9⟩] := by
  with_unfolding_all decide

/-- Claim C1 (amended): `generate_merged_bboxes` returns the original
boxes/scores unchanged and in order as a PREFIX of its output, while
`merge_bboxes` (when it returns at all) returns them unchanged and in order
as a SUFFIX of its output, after the merged candidates. -/
theorem merge_concat_order (bboxes : List Box) (bbox_scores : List ℚ)
    (merged_box_length : ℤ) (merge_box_length merge_iou_threshold : ℚ)
    (r : List Box × List ℚ)
    (h : merge_bboxes bboxes bbox_scores merge_box_length merge_iou_threshold = some r) :
    (generate_merged_bboxes bboxes bbox_scores merged_box_length
        merge_iou_threshold).1.take bboxes.length = bboxes ∧
    (generate_merged_bboxes bboxes bbox_scores merged_box_length
        merge_iou_threshold).2.take bbox_scores.length = bbox_scores ∧
    r.1.drop (r.1.length - bboxes.length) = bboxes ∧
    r.2.drop (r.2.length - bbox_scores.length) = bbox_scores := by
  simp only [merge_bboxes] at h
  split at h
  · simp at h
  · injection h with h'
    subst h'
    refine ⟨?_, ?_, ?_, ?_⟩
    · simp only [generate_merged_bboxes]
      exact List.take_left _ _
    · simp only [generate_merged_bboxes]
      exact List.take_left _ _
    · simp only [List.length_append, Nat.add_sub_cancel]
      exact List.drop_left _ _
    · simp only [List.length_append, Nat.add_sub_cancel]
      exact List.drop_left _ _

/-- Witness for `merge_concat_order` on a concrete one-box input. -/
theorem merge_concat_order_witness :
    merge_bboxes [(⟨0, 0, 9, 9⟩ : Box)] [(1 : ℚ)] 20 (1 / 10) = some ([⟨0, 0, 9, 9⟩], [1]) ∧
    (generate_merged_bboxes [(⟨0, 0, 9, 9⟩ : Box)] [(1 : ℚ)] 20 (1 / 10)).1.take 1 =
      [⟨0, 0, 9, 9⟩] :=
  ⟨by with_unfolding_all decide,
   (merge_concat_order [⟨0, 0, 9, 9⟩] [1] 20 20 (1 / 10) ([⟨0, 0, 9, 9⟩], [1])
      (by with_unfolding_all decide)).1⟩

/-! ### Claim C3 -/

/-- Claim C3, counterexample: `merge_bboxes` on empty input does not return
its input — it fails (`np.stack` raises on an empty list). -/
theorem mergeBboxes_empty_cex :
    merge_bboxes ([] : List Box) ([] : List ℚ) 20 (1 / 10) = none := rfl

/-- Claim C3 (amended): `generate_merged_bboxes` returns empty and
single-element inputs unchanged; `merge_bboxes` returns single-element
inputs unchanged but fails on empty input. -/
theorem merge_small_input (b : Box) (s : ℚ) (merged_box_length : ℤ)
    (merge_box_length merge_iou_threshold : ℚ) :
    generate_merged_bboxes [] [] merged_box_length merge_iou_threshold = ([], []) ∧
    generate_merged_bboxes [b] [s] merged_box_length merge_iou_threshold = ([b], [s]) ∧
    merge_bboxes [b] [s] merge_box_length merge_iou_threshold = some ([b], [s]) ∧
    merge_bboxes ([] : List Box) ([] : List ℚ) merge_box_length merge_iou_threshold
      = none := by
  refine ⟨rfl, rfl, rfl, rfl⟩

/-! ### Grouping lemmas -/

lemma firstKeys_subset {α : Type} [DecidableEq α] :
    ∀ (l : List α), ∀ a ∈ firstKeys l, a ∈ l := by
  intro l
  induction l with
  | nil => simp [firstKeys]
  | cons x xs ih =>
    intro a ha
    simp only [firstKeys, List.mem_cons] at ha ⊢
    rcases ha with rfl | ha
    · exact Or.inl rfl
    · exact Or.inr (ih _ (List.mem_of_mem_filter ha))

lemma firstKeys_nodup {α : Type} [DecidableEq α] :
    ∀ (l : List α), (firstKeys l).Nodup := by
  intro l
  induction l with
  | nil => simp [firstKeys]
  | cons x xs ih =>
    simp only [firstKeys]
    refine List.nodup_cons.mpr ⟨?_, ih.filter _⟩
    intro hx
    have hne := (List.mem_filter.mp hx).2
    simp at hne

lemma length_le_two_of_nodup {α : Type} (l : List α) (a b : α)
    (hnd : l.Nodup) (h : ∀ x ∈ l, x = a ∨ x = b) : l.length ≤ 2 := by
  rcases l with _ | ⟨x, _ | ⟨y, _ | ⟨z, t⟩⟩⟩
  · simp
  · simp
  · simp
  · exfalso
    have hx := h x (by simp)
    have hy := h y (by simp)
    have hz := h z (by simp)
    rcases hx with rfl | rfl <;> rcases hy with rfl | rfl <;>
      rcases hz with rfl | rfl <;> simp_all [List.nodup_cons]

lemma group_array_subset {α : Type} (vals : List α) (keys : List ℤ) (k : ℤ) :
    ∀ a ∈ group_array vals keys k, a ∈ vals := by
  intro a ha
  rw [group_array] at ha
  rcases List.mem_map.mp ha with ⟨p, hp, rfl⟩
  obtain ⟨pk, pv⟩ := p
  exact (List.of_mem_zip (List.mem_of_mem_filter hp)).2

lemma centeredBoxes4_mem (centroids : List (List ℚ)) (L : ℤ) :
    ∀ b ∈ centeredBoxes4 centroids L, ∃ p, b = centeredBox p L true := by
  intro b hb
  rcases List.mem_map.mp hb with ⟨r, _, rfl⟩
  exact ⟨_, rfl⟩

lemma generate_merged_bboxes_mem (bs : List Box) (ss : List ℚ) (Lm : ℤ) (thr : ℚ) :
    ∀ b ∈ (generate_merged_bboxes bs ss Lm thr).1,
      b ∈ bs ∨ ∃ p, b = centeredBox p Lm false := by
  intro b hb
  simp only [generate_merged_bboxes] at hb
  rcases List.mem_append.mp hb with hb | hb
  · exact Or.inl hb
  · rcases List.mem_map.mp hb with ⟨q, _, rfl⟩
    exact Or.inr ⟨_, rfl⟩

lemma nms_bboxes_subset (bs : List Box) (ss : List ℚ) (thr : ℚ) (mb : ℕ) :
    ∀ b ∈ nms_bboxes bs ss thr mb, b ∈ bs := by
  intro b hb
  rw [nms_bboxes] at hb
  rcases List.mem_map.mp hb with ⟨p, hp, rfl⟩
  obtain ⟨p1, p2⟩ := p
  exact (List.of_mem_zip (nmsGreedy_subset _ _ _ _ hp)).1

lemma pipelineSurvivors_extent (centroids : List (List ℚ)) (centroid_vals : List ℚ)
    (Li Lm : ℤ) (mThr nThr : ℚ) :
    ∀ p ∈ pipelineSurvivors centroids centroid_vals Li Lm mThr nThr,
      (p.2.y2 - p.2.y1 = (Li : ℚ) ∧ p.2.x2 - p.2.x1 = (Li : ℚ)) ∨
      (p.2.y2 - p.2.y1 = (Lm : ℚ) ∧ p.2.x2 - p.2.x1 = (Lm : ℚ)) := by
  intro p hp
  simp only [pipelineSurvivors] at hp
  rcases List.mem_flatMap.mp hp with ⟨s, hs, hmem⟩
  rcases List.mem_map.mp hmem with ⟨b, hb, rfl⟩
  have hb' := nms_bboxes_subset _ _ _ _ _ hb
  rcases generate_merged_bboxes_mem _ _ _ _ _ hb' with hbs | ⟨q, rfl⟩
  · have hgs := group_array_subset _ _ _ _ hbs
    rcases centeredBoxes4_mem _ _ _ hgs with ⟨q, rfl⟩
    exact Or.inl (centeredBox_extent q Li true)
  · exact Or.inr (centeredBox_extent q Lm false)

lemma boxKey_of_extent (b : Box) (L : ℤ)
    (hy : b.y2 - b.y1 = (L : ℚ)) (hx : b.x2 - b.x1 = (L : ℚ)) :
    boxKey b = (L, L) := by
  rw [boxKey, hy, hx, truncQ_intCast]

/-! ### Claim C5 -/

/-- Claim C5: in the size-grouping pass, the group key of every surviving
box equals its height and width rounded to the nearest integer (the code
truncates, but every surviving extent is exactly an integer box length, so
truncation and rounding agree). -/
theorem size_group_key_round (centroids : List (List ℚ)) (centroid_vals : List ℚ)
    (instance_box_length merged_box_length : ℤ)
    (merge_iou_threshold nms_iou_threshold : ℚ) (p : ℤ × Box)
    (hp : p ∈ pipelineSurvivors centroids centroid_vals instance_box_length
      merged_box_length merge_iou_threshold nms_iou_threshold) :
    boxKey p.2 = (round (p.2.y2 - p.2.y1), round (p.2.x2 - p.2.x1)) := by
  rcases pipelineSurvivors_extent _ _ _ _ _ _ p hp with ⟨h1, h2⟩ | ⟨h1, h2⟩ <;>
    rw [boxKey, h1, h2, truncQ_intCast, round_intCast]

/-- Witness for `size_group_key_round` on a one-centroid pipeline run. -/
theorem size_group_key_round_witness :
    (0, (⟨17 / 2, 17 / 2, 25 / 2, 25 / 2⟩ : Box)) ∈
      pipelineSurvivors [[0, 10, 10, 0]] [1] 4 8 (1 / 10) (1 / 4) ∧
    boxKey (⟨17 / 2, 17 / 2, 25 / 2, 25 / 2⟩ : Box) =
      (round ((25 / 2 : ℚ) - 17 / 2), round ((25 / 2 : ℚ) - 17 / 2)) :=
  ⟨by with_unfolding_all decide,
   size_group_key_round [[0, 10, 10, 0]] [1] 4 8 (1 / 10) (1 / 4)
     (0, ⟨17 / 2, 17 / 2, 25 / 2, 25 / 2⟩) (by with_unfolding_all decide)⟩

/-! ### Claim C10 -/

/-- Claim C10: every box surviving to the size-grouping stage has height
and width exactly `instance_box_length` or exactly `merged_box_length`, so
at most two size groups exist and `extract_region_proposals` returns at
most two `RegionProposalSet`s. -/
theorem pipeline_at_most_two_sizes (centroids : List (List ℚ))
    (centroid_vals : List ℚ) (instance_box_length merged_box_length : ℤ)
    (merge_iou_threshold nms_iou_threshold : ℚ) :
    (∀ p ∈ pipelineSurvivors centroids centroid_vals instance_box_length
        merged_box_length merge_iou_threshold nms_iou_threshold,
      (p.2.y2 - p.2.y1 = (instance_box_length : ℚ) ∧
        p.2.x2 - p.2.x1 = (instance_box_length : ℚ)) ∨
      (p.2.y2 - p.2.y1 = (merged_box_length : ℚ) ∧
        p.2.x2 - p.2.x1 = (merged_box_length : ℚ))) ∧
    (extract_region_proposals centroids centroid_vals instance_box_length
        merged_box_length merge_iou_threshold nms_iou_threshold).length ≤ 2 := by
  refine ⟨pipelineSurvivors_extent _ _ _ _ _ _, ?_⟩
  simp only [extract_region_proposals, List.length_map]
  apply length_le_two_of_nodup _ (instance_box_length, instance_box_length)
    (merged_box_length, merged_box_length) (firstKeys_nodup _)
  intro k hk
  have hk' := firstKeys_subset _ _ hk
  rcases List.mem_map.mp hk' with ⟨p, hp, rfl⟩
  rcases pipelineSurvivors_extent _ _ _ _ _ _ p hp with ⟨h1, h2⟩ | ⟨h1, h2⟩
  · exact Or.inl (boxKey_of_extent _ _ h1 h2)
  · exact Or.inr (boxKey_of_extent _ _ h1 h2)

/-- Witness for `pipeline_at_most_two_sizes` on a one-centroid pipeline
run. -/
theorem pipeline_at_most_two_sizes_witness :
    (extract_region_proposals [[0, 10, 10, 0]] [1] 4 8 (1 / 10) (1 / 4)).length ≤ 2 :=
  (pipeline_at_most_two_sizes [[0, 10, 10, 0]] [1] 4 8 (1 / 10) (1 / 4)).2
